import Mathlib

/-!
Shallow embedding of the layer-compositing core of `psdemiurge.py`
(class `PSDemiurge`, methods `combine_layers` and `get_bounding_size`),
together with theorems checking the specification's claims about it.

Pixels are RGBA samples (naturals, intended range 0..255); a layer's
pixel buffer (`layer.as_PIL()` in the source) is modelled as a total
function on its own local coordinates, sized by its bounding box.
-/

namespace PSDemiurge

/-- One RGBA sample. -/
structure Pixel where
  r : Nat
  g : Nat
  b : Nat
  a : Nat
deriving DecidableEq, Repr

/-- A layer bounding box `(x1, y1, x2, y2)` in document coordinates,
as exposed by `layer.bbox` in the source. -/
structure BBox where
  x1 : Int
  y1 : Int
  x2 : Int
  y2 : Int
deriving DecidableEq, Repr

/-- One document layer: `.name`, `.bbox`, and the pixel buffer returned by
`layer.as_PIL()`, addressed in the layer's own local coordinates
`0 ≤ x < x2 - x1`, `0 ≤ y < y2 - y1`. -/
structure Layer where
  name : String
  bbox : BBox
  pix : Int → Int → Pixel

/-- A PIL image used as canvas: a size and a total pixel map; only
coordinates `0 ≤ x < width`, `0 ≤ y < height` are meaningful. -/
structure Canvas where
  width : Int
  height : Int
  pix : Int → Int → Pixel

/-- Model of `Image.new(mode, size)`: a canvas of the given size whose
pixels are all zero (transparent black). -/
def image_new (size : Int × Int) : Canvas :=
  ⟨size.1, size.2, fun _ _ => ⟨0, 0, 0, 0⟩⟩

/-- Model of PIL mask blending for `paste(..., mask=img)` with an RGBA
mask image: the mask value (the source's own alpha sample `s.a`) selects
the source at 255 and the destination at 0, blending in between. -/
def blendPixel (s d : Pixel) : Pixel :=
  ⟨(s.r * s.a + d.r * (255 - s.a)) / 255,
   (s.g * s.a + d.g * (255 - s.a)) / 255,
   (s.b * s.a + d.b * (255 - s.a)) / 255,
   (s.a * s.a + d.a * (255 - s.a)) / 255⟩

/-- Model of `output_image.paste(ith_image, box=(x1, y1), mask=ith_image)`
(source lines 165-168): the layer's buffer is placed with its top-left
corner at the layer's own `(bbox.x1, bbox.y1)`, clipped to the canvas,
masked by the layer's own alpha channel. -/
def paste_layer (c : Canvas) (l : Layer) : Canvas :=
  ⟨c.width, c.height, fun x y =>
    if 0 ≤ x ∧ x < c.width ∧ 0 ≤ y ∧ y < c.height ∧
       l.bbox.x1 ≤ x ∧ x < l.bbox.x2 ∧ l.bbox.y1 ≤ y ∧ y < l.bbox.y2 then
      blendPixel (l.pix (x - l.bbox.x1) (y - l.bbox.y1)) (c.pix x y)
    else
      c.pix x y⟩

/-- One iteration of the accumulation loop of `get_bounding_size`
(source lines 177-185): the four `if` updates on `current_bbox`. -/
def bbox_step (cur b : BBox) : BBox :=
  let cur := if b.x1 < cur.x1 then ⟨b.x1, cur.y1, cur.x2, cur.y2⟩ else cur
  let cur := if b.y1 < cur.y1 then ⟨cur.x1, b.y1, cur.x2, cur.y2⟩ else cur
  let cur := if b.x2 > cur.x2 then ⟨cur.x1, cur.y1, b.x2, cur.y2⟩ else cur
  let cur := if b.y2 > cur.y2 then ⟨cur.x1, cur.y1, cur.x2, b.y2⟩ else cur
  cur

/-- The accumulated `current_bbox` of `get_bounding_size`, seeded at the
zero box `{x1: 0, y1: 0, x2: 0, y2: 0}` (source line 175). -/
def current_bbox (layers : List Layer) : BBox :=
  layers.foldl (fun cur l => bbox_step cur l.bbox) ⟨0, 0, 0, 0⟩

/-- `PSDemiurge.get_bounding_size` (source lines 172-188): width and
height of the accumulated box. -/
def get_bounding_size (layers : List Layer) : Int × Int :=
  ((current_bbox layers).x2 - (current_bbox layers).x1,
   (current_bbox layers).y2 - (current_bbox layers).y1)

/-- The layer selection of `combine_layers` (source lines 148-149):
keep the document layers whose name is in `layer_names`, in document
order, then reverse in place. -/
def used_layers (psd : List Layer) (layer_names : List String) : List Layer :=
  (psd.filter fun l => layer_names.contains l.name).reverse

/-- The paste loop of `combine_layers` (source lines 155-168): a fresh
canvas sized by `get_bounding_size`, then each selected layer pasted in
order. -/
def paste_layers (ls : List Layer) : Canvas :=
  ls.foldl paste_layer (image_new (get_bounding_size ls))

/-- `PSDemiurge.combine_layers` (source lines 145-170). When the
selection is empty the source raises an uncaught `IndexError` at
`layer_images[0]` before any canvas is allocated; this is modelled as
`none`. -/
def combine_layers (psd : List Layer) (layer_names : List String) : Option Canvas :=
  if (used_layers psd layer_names).isEmpty then none
  else some (paste_layers (used_layers psd layer_names))

/-- The concrete "body" layer of the spec's §8 scenario: box
`(0, 0, 100, 200)`, uniformly opaque white. -/
def bodyLayer : Layer :=
  ⟨"body", ⟨0, 0, 100, 200⟩, fun _ _ => ⟨255, 255, 255, 255⟩⟩

/-- The concrete "hat" layer of the spec's §8 scenario: box
`(10, -20, 90, 40)`, uniformly opaque red. -/
def hatLayer : Layer :=
  ⟨"hat", ⟨10, -20, 90, 40⟩, fun _ _ => ⟨255, 0, 0, 255⟩⟩

/-! ### Closed form of the accumulation loop -/

lemma bbox_step_eq (cur b : BBox) :
    bbox_step cur b = ⟨min cur.x1 b.x1, min cur.y1 b.y1, max cur.x2 b.x2, max cur.y2 b.y2⟩ := by
  obtain ⟨cx1, cy1, cx2, cy2⟩ := cur
  obtain ⟨bx1, by1, bx2, by2⟩ := b
  simp only [bbox_step]
  split_ifs <;> simp_all [BBox.mk.injEq] <;> omega

lemma foldr_op_init (op : Int → Int → Int)
    (hcomm : ∀ a b, op a b = op b a)
    (hlcomm : ∀ a b c, op a (op b c) = op b (op a c)) :
    ∀ (L : List Int) (a b : Int), L.foldr op (op a b) = op b (L.foldr op a) := by
  intro L
  induction L with
  | nil => intro a b; exact hcomm a b
  | cons c L ih =>
      intro a b
      simp only [List.foldr_cons]
      rw [ih, hlcomm]

lemma foldl_bbox_x1 : ∀ (layers : List Layer) (cur : BBox),
    (layers.foldl (fun c l => bbox_step c l.bbox) cur).x1
      = (layers.map fun l => l.bbox.x1).foldr min cur.x1 := by
  intro layers
  induction layers with
  | nil => intro cur; rfl
  | cons l ls ih =>
      intro cur
      simp only [List.foldl_cons, List.map_cons, List.foldr_cons]
      rw [ih, bbox_step_eq]
      exact foldr_op_init min min_comm min_left_comm (ls.map fun l => l.bbox.x1) cur.x1 l.bbox.x1

lemma foldl_bbox_y1 : ∀ (layers : List Layer) (cur : BBox),
    (layers.foldl (fun c l => bbox_step c l.bbox) cur).y1
      = (layers.map fun l => l.bbox.y1).foldr min cur.y1 := by
  intro layers
  induction layers with
  | nil => intro cur; rfl
  | cons l ls ih =>
      intro cur
      simp only [List.foldl_cons, List.map_cons, List.foldr_cons]
      rw [ih, bbox_step_eq]
      exact foldr_op_init min min_comm min_left_comm (ls.map fun l => l.bbox.y1) cur.y1 l.bbox.y1

lemma foldl_bbox_x2 : ∀ (layers : List Layer) (cur : BBox),
    (layers.foldl (fun c l => bbox_step c l.bbox) cur).x2
      = (layers.map fun l => l.bbox.x2).foldr max cur.x2 := by
  intro layers
  induction layers with
  | nil => intro cur; rfl
  | cons l ls ih =>
      intro cur
      simp only [List.foldl_cons, List.map_cons, List.foldr_cons]
      rw [ih, bbox_step_eq]
      exact foldr_op_init max max_comm max_left_comm (ls.map fun l => l.bbox.x2) cur.x2 l.bbox.x2

lemma foldl_bbox_y2 : ∀ (layers : List Layer) (cur : BBox),
    (layers.foldl (fun c l => bbox_step c l.bbox) cur).y2
      = (layers.map fun l => l.bbox.y2).foldr max cur.y2 := by
  intro layers
  induction layers with
  | nil => intro cur; rfl
  | cons l ls ih =>
      intro cur
      simp only [List.foldl_cons, List.map_cons, List.foldr_cons]
      rw [ih, bbox_step_eq]
      exact foldr_op_init max max_comm max_left_comm (ls.map fun l => l.bbox.y2) cur.y2 l.bbox.y2

lemma current_bbox_x1 (layers : List Layer) :
    (current_bbox layers).x1 = (layers.map fun l => l.bbox.x1).foldr min 0 :=
  foldl_bbox_x1 layers ⟨0, 0, 0, 0⟩

lemma current_bbox_y1 (layers : List Layer) :
    (current_bbox layers).y1 = (layers.map fun l => l.bbox.y1).foldr min 0 :=
  foldl_bbox_y1 layers ⟨0, 0, 0, 0⟩

lemma current_bbox_x2 (layers : List Layer) :
    (current_bbox layers).x2 = (layers.map fun l => l.bbox.x2).foldr max 0 :=
  foldl_bbox_x2 layers ⟨0, 0, 0, 0⟩

lemma current_bbox_y2 (layers : List Layer) :
    (current_bbox layers).y2 = (layers.map fun l => l.bbox.y2).foldr max 0 :=
  foldl_bbox_y2 layers ⟨0, 0, 0, 0⟩

lemma foldr_min_le_init (L : List Int) (i : Int) : L.foldr min i ≤ i := by
  induction L with
  | nil => exact le_refl i
  | cons c L ih => exact le_trans (min_le_right c (L.foldr min i)) ih

lemma le_foldr_max_init (L : List Int) (i : Int) : i ≤ L.foldr max i := by
  induction L with
  | nil => exact le_refl i
  | cons c L ih => exact le_trans ih (le_max_right c (L.foldr max i))

lemma foldr_min_le_mem {L : List Int} {a : Int} (h : a ∈ L) (i : Int) :
    L.foldr min i ≤ a := by
  induction L with
  | nil => cases h
  | cons c L ih =>
      rcases List.mem_cons.mp h with rfl | h2
      · exact min_le_left a (L.foldr min i)
      · exact le_trans (min_le_right c (L.foldr min i)) (ih h2)

lemma mem_le_foldr_max {L : List Int} {a : Int} (h : a ∈ L) (i : Int) :
    a ≤ L.foldr max i := by
  induction L with
  | nil => cases h
  | cons c L ih =>
      rcases List.mem_cons.mp h with rfl | h2
      · exact le_max_left a (L.foldr max i)
      · exact le_trans (ih h2) (le_max_right c (L.foldr max i))

/-! ### Claims about the Bounding-Box Reducer -/

/-- C3: `get_bounding_size` accumulates, from the zero box, the minimum
of all `x1`/`y1` and the maximum of all `x2`/`y2` and returns the
accumulated box's width and height, so the result is
`(max(0, max x2) - min(0, min x1), max(0, max y2) - min(0, min y1))`
and the accumulated box always contains the origin. -/
theorem get_bounding_size_closed_form (layers : List Layer) :
    get_bounding_size layers
      = ((layers.map fun l => l.bbox.x2).foldr max 0
           - (layers.map fun l => l.bbox.x1).foldr min 0,
         (layers.map fun l => l.bbox.y2).foldr max 0
           - (layers.map fun l => l.bbox.y1).foldr min 0)
      ∧ (current_bbox layers).x1 ≤ 0 ∧ (current_bbox layers).y1 ≤ 0
      ∧ 0 ≤ (current_bbox layers).x2 ∧ 0 ≤ (current_bbox layers).y2 := by
  refine ⟨?_, ?_, ?_, ?_, ?_⟩
  · simp only [get_bounding_size, current_bbox_x1, current_bbox_y1,
      current_bbox_x2, current_bbox_y2]
  · rw [current_bbox_x1]; exact foldr_min_le_init _ 0
  · rw [current_bbox_y1]; exact foldr_min_le_init _ 0
  · rw [current_bbox_x2]; exact le_foldr_max_init _ 0
  · rw [current_bbox_y2]; exact le_foldr_max_init _ 0

/-- C2 counterexample: `get_bounding_size` does not reject an empty
input; it silently returns the degenerate size `(0, 0)`. -/
theorem get_bounding_size_nil : get_bounding_size ([] : List Layer) = (0, 0) := rfl

/-- C2 (amended): when the requested names match zero document layers,
`combine_layers` fails before producing an image (the uncaught
`IndexError` at `layer_images[0]`, modelled as `none`); the refusal is
not a signalled `EmptyVariantError`, and `get_bounding_size` itself
accepts the empty selection. -/
theorem combine_layers_no_match (psd : List Layer) (names : List String)
    (h : ∀ l ∈ psd, names.contains l.name = false) :
    combine_layers psd names = none := by
  have hf : psd.filter (fun l => names.contains l.name) = [] := by
    rw [List.filter_eq_nil_iff]
    intro a ha
    have hc := h a ha
    simp only [hc]
    simp
  unfold combine_layers used_layers
  rw [hf]
  rfl

/-- Witness for C2's amended theorem at a concrete document and a
variant whose single requested name matches no layer. -/
theorem combine_layers_no_match_witness :
    combine_layers [bodyLayer, hatLayer] ["ghost"] = none := by
  apply combine_layers_no_match
  intro l hl
  rcases List.mem_cons.mp hl with rfl | hl2
  · rfl
  · rcases List.mem_cons.mp hl2 with rfl | hl3
    · rfl
    · cases hl3

/-- C1: evaluating `combine_layers` on the spec's §8 scenario (body box
`(0,0,100,200)`, hat box `(10,-20,90,40)`). The canvas is `(100, 220)`
as claimed, but the layers are pasted at their absolute `(x1, y1)`, not
at `(x1, y1)` minus the canvas origin `(0, -20)`: canvas pixel `(0, 0)`
holds the body (the claimed offsets leave it clear), pixel `(0, 219)` is
clear (the claimed body offset `(0, 20)` would put the body's bottom row
there), and pixel `(50, 10)` shows the body over the hat (the hat,
pasted at `y = -20`, loses its top rows to clipping; the claimed hat
offset `(10, 0)` would keep the hat on top there). -/
theorem combine_layers_scenario_eval :
    (combine_layers [bodyLayer, hatLayer] ["body", "hat"]).map
        (fun c => ((c.width, c.height), c.pix 0 0, c.pix 0 219, c.pix 50 10))
      = some ((100, 220), ⟨255, 255, 255, 255⟩, ⟨0, 0, 0, 0⟩, ⟨255, 255, 255, 255⟩) := by
  decide

/-- C5: on valid boxes (`x1 ≤ x2`, `y1 ≤ y2`) the reducer returns a
non-negative width and height, and the accumulated box contains every
input box. -/
theorem get_bounding_size_contains (layers : List Layer)
    (_hval : ∀ l ∈ layers, l.bbox.x1 ≤ l.bbox.x2 ∧ l.bbox.y1 ≤ l.bbox.y2) :
    0 ≤ (get_bounding_size layers).1 ∧ 0 ≤ (get_bounding_size layers).2 ∧
    ∀ l ∈ layers,
      (current_bbox layers).x1 ≤ l.bbox.x1 ∧ (current_bbox layers).y1 ≤ l.bbox.y1 ∧
      l.bbox.x2 ≤ (current_bbox layers).x2 ∧ l.bbox.y2 ≤ (current_bbox layers).y2 := by
  refine ⟨?_, ?_, ?_⟩
  · have h1 := foldr_min_le_init (layers.map fun l => l.bbox.x1) 0
    have h2 := le_foldr_max_init (layers.map fun l => l.bbox.x2) 0
    simp only [get_bounding_size, current_bbox_x1, current_bbox_x2]
    omega
  · have h1 := foldr_min_le_init (layers.map fun l => l.bbox.y1) 0
    have h2 := le_foldr_max_init (layers.map fun l => l.bbox.y2) 0
    simp only [get_bounding_size, current_bbox_y1, current_bbox_y2]
    omega
  · intro l hl
    refine ⟨?_, ?_, ?_, ?_⟩
    · rw [current_bbox_x1]
      exact foldr_min_le_mem (List.mem_map_of_mem _ hl) 0
    · rw [current_bbox_y1]
      exact foldr_min_le_mem (List.mem_map_of_mem _ hl) 0
    · rw [current_bbox_x2]
      exact mem_le_foldr_max (List.mem_map_of_mem _ hl) 0
    · rw [current_bbox_y2]
      exact mem_le_foldr_max (List.mem_map_of_mem _ hl) 0

/-- Witness for C5 at the two concrete §8 layers: non-negative size and
containment of the hat's box, with the validity hypothesis discharged by
evaluation. -/
theorem get_bounding_size_contains_witness :
    0 ≤ (get_bounding_size [bodyLayer, hatLayer]).1 ∧
    (current_bbox [bodyLayer, hatLayer]).y1 ≤ hatLayer.bbox.y1 ∧
    hatLayer.bbox.x2 ≤ (current_bbox [bodyLayer, hatLayer]).x2 := by
  have hval : ∀ l ∈ [bodyLayer, hatLayer],
      l.bbox.x1 ≤ l.bbox.x2 ∧ l.bbox.y1 ≤ l.bbox.y2 := by
    intro l hl
    rcases List.mem_cons.mp hl with rfl | hl2
    · exact ⟨by decide, by decide⟩
    · rcases List.mem_cons.mp hl2 with rfl | hl3
      · exact ⟨by decide, by decide⟩
      · cases hl3
  have hmem : hatLayer ∈ [bodyLayer, hatLayer] := by
    exact List.mem_cons.mpr (Or.inr (List.mem_cons.mpr (Or.inl rfl)))
  have h := get_bounding_size_contains [bodyLayer, hatLayer] hval
  exact ⟨h.1, (h.2.2 hatLayer hmem).2.1, (h.2.2 hatLayer hmem).2.2.1⟩

lemma bbox_step_right_comm (c a b : BBox) :
    bbox_step (bbox_step c a) b = bbox_step (bbox_step c b) a := by
  simp only [bbox_step_eq, BBox.mk.injEq]
  refine ⟨?_, ?_, ?_, ?_⟩ <;> omega

/-- C6: the Bounding-Box Reducer is order-independent: any permutation
of the layer sequence yields the identical (width, height). -/
theorem get_bounding_size_perm {layers₁ layers₂ : List Layer}
    (h : layers₁.Perm layers₂) :
    get_bounding_size layers₁ = get_bounding_size layers₂ := by
  have hc : current_bbox layers₁ = current_bbox layers₂ :=
    h.foldl_eq' (fun x _ y _ z => bbox_step_right_comm z x.bbox y.bbox) ⟨0, 0, 0, 0⟩
  unfold get_bounding_size
  rw [hc]

/-- Witness for C6 on a concrete transposition of the two §8 layers. -/
theorem get_bounding_size_perm_witness :
    get_bounding_size [bodyLayer, hatLayer] = get_bounding_size [hatLayer, bodyLayer] :=
  get_bounding_size_perm (List.Perm.swap hatLayer bodyLayer [])

/-! ### Claims about variant resolution -/

/-- C7: the selection keeps exactly the document layers whose name is in
the requested set, in document order (a reversed sublist of the
document), and a requested name matching no layer is silently dropped:
it changes neither the selection nor the composite. -/
theorem used_layers_spec (psd : List Layer) (names : List String) :
    (∀ l, l ∈ used_layers psd names ↔ l ∈ psd ∧ names.contains l.name = true)
    ∧ (used_layers psd names).reverse.Sublist psd
    ∧ ∀ n, (∀ l ∈ psd, (l.name == n) = false) →
        used_layers psd (n :: names) = used_layers psd names
        ∧ combine_layers psd (n :: names) = combine_layers psd names := by
  refine ⟨?_, ?_, ?_⟩
  · intro l
    simp [used_layers, List.mem_reverse, List.mem_filter]
  · simp only [used_layers, List.reverse_reverse]
    exact List.filter_sublist psd
  · intro n hn
    have hu : used_layers psd (n :: names) = used_layers psd names := by
      unfold used_layers
      congr 1
      apply List.filter_congr
      intro l hl
      show (n :: names).contains l.name = names.contains l.name
      rw [List.contains_cons, hn l hl, Bool.false_or]
    refine ⟨hu, ?_⟩
    unfold combine_layers
    rw [hu]

/-- Witness for C7 at a concrete document: prepending the unmatched name
"ghost" to the request changes nothing. -/
theorem used_layers_spec_witness :
    used_layers [bodyLayer, hatLayer] ("ghost" :: ["body", "hat"])
      = used_layers [bodyLayer, hatLayer] ["body", "hat"]
    ∧ combine_layers [bodyLayer, hatLayer] ("ghost" :: ["body", "hat"])
      = combine_layers [bodyLayer, hatLayer] ["body", "hat"] := by
  apply (used_layers_spec [bodyLayer, hatLayer] ["body", "hat"]).2.2
  intro l hl
  rcases List.mem_cons.mp hl with rfl | hl2
  · rfl
  · rcases List.mem_cons.mp hl2 with rfl | hl3
    · rfl
    · cases hl3

/-- C10: two document layers sharing a requested name are both kept by
the selection, in reversed document order, and the composite is still
produced (duplicate names are never rejected). -/
theorem used_layers_duplicates (pre mid post : List Layer) (l1 l2 : Layer)
    (names : List String)
    (h1 : names.contains l1.name = true) (h2 : names.contains l2.name = true) :
    used_layers (pre ++ l1 :: (mid ++ l2 :: post)) names
      = used_layers post names
          ++ l2 :: (used_layers mid names ++ l1 :: used_layers pre names)
    ∧ combine_layers (pre ++ l1 :: (mid ++ l2 :: post)) names ≠ none := by
  have hu : used_layers (pre ++ l1 :: (mid ++ l2 :: post)) names
      = used_layers post names
          ++ l2 :: (used_layers mid names ++ l1 :: used_layers pre names) := by
    have h1' : l1.name ∈ names := by simpa using h1
    have h2' : l2.name ∈ names := by simpa using h2
    unfold used_layers
    simp [List.filter_append, List.filter_cons, h1', h2', List.reverse_append,
      List.append_assoc]
  refine ⟨hu, ?_⟩
  have hne : (used_layers (pre ++ l1 :: (mid ++ l2 :: post)) names).isEmpty = false := by
    rw [hu]
    simp [List.isEmpty_iff]
  simp [combine_layers, hne]

/-- A first layer named "eye" for the duplicate-name scenario. -/
def eyeLayerA : Layer := ⟨"eye", ⟨0, 0, 10, 10⟩, fun _ _ => ⟨1, 2, 3, 255⟩⟩

/-- A second, distinct layer also named "eye". -/
def eyeLayerB : Layer := ⟨"eye", ⟨5, 5, 15, 15⟩, fun _ _ => ⟨4, 5, 6, 255⟩⟩

/-- Witness for C10: a two-layer document whose layers share the
requested name "eye"; both survive selection, in reversed order. -/
theorem used_layers_duplicates_witness :
    used_layers [eyeLayerA, eyeLayerB] ["eye"] = [eyeLayerB, eyeLayerA]
    ∧ combine_layers [eyeLayerA, eyeLayerB] ["eye"] ≠ none := by
  exact used_layers_duplicates [] [] [] eyeLayerA eyeLayerB ["eye"] rfl rfl

/-! ### Claims about the Compositor's pixel output -/

lemma blendPixel_opaque (s d : Pixel) (h : s.a = 255) : blendPixel s d = s := by
  obtain ⟨r, g, b, a⟩ := s
  simp only [] at h
  subst h
  unfold blendPixel
  simp only [Pixel.mk.injEq]
  refine ⟨?_, ?_, ?_, ?_⟩ <;> simp [Nat.mul_div_cancel]

lemma paste_layer_pix_opaque (c : Canvas) (l : Layer) (x y : Int)
    (hx0 : 0 ≤ x) (hxw : x < c.width) (hy0 : 0 ≤ y) (hyh : y < c.height)
    (h1 : l.bbox.x1 ≤ x) (h2 : x < l.bbox.x2) (h3 : l.bbox.y1 ≤ y) (h4 : y < l.bbox.y2)
    (hop : (l.pix (x - l.bbox.x1) (y - l.bbox.y1)).a = 255) :
    (paste_layer c l).pix x y = l.pix (x - l.bbox.x1) (y - l.bbox.y1) := by
  simp only [paste_layer]
  rw [if_pos ⟨hx0, hxw, hy0, hyh, h1, h2, h3, h4⟩]
  exact blendPixel_opaque _ _ hop

/-- A single layer lying strictly to the right of the origin: its box is
`(10, 0, 20, 10)`, so its own size is `(10, 10)`. -/
def offsetLayer : Layer := ⟨"off", ⟨10, 0, 20, 10⟩, fun _ _ => ⟨9, 9, 9, 255⟩⟩

/-- C4 counterexample: for the single layer with box `(10, 0, 20, 10)`
the composite canvas is `(20, 10)` — origin-seeded — while the layer's
own size `(x2 - x1, y2 - y1)` is `(10, 10)`: the canvas is not sized
exactly to the layer. -/
theorem combine_layers_single_not_tight :
    (combine_layers [offsetLayer] ["off"]).map (fun c => (c.width, c.height))
        = some (20, 10)
    ∧ (offsetLayer.bbox.x2 - offsetLayer.bbox.x1,
       offsetLayer.bbox.y2 - offsetLayer.bbox.y1) = (10, 10) := by
  decide

/-- C4 (amended): for a single layer whose box starts at the origin
(`x1 = 0`, `y1 = 0`) the canvas measures exactly the layer's own size
`(x2, y2)`, and every fully opaque pixel of the layer is copied onto the
canvas unmodified. (In general the origin-seeded canvas measures
`(max(0, x2) - min(0, x1), max(0, y2) - min(0, y1))`, and PIL's masked
paste re-blends pixels with intermediate alpha.) -/
theorem combine_layers_single (l : Layer) (hx1 : l.bbox.x1 = 0) (hy1 : l.bbox.y1 = 0)
    (x y : Int) (hx0 : 0 ≤ x) (hx2 : x < l.bbox.x2) (hy0 : 0 ≤ y) (hy2 : y < l.bbox.y2)
    (hop : (l.pix x y).a = 255) :
    combine_layers [l] [l.name] = some (paste_layers [l])
    ∧ (paste_layers [l]).width = l.bbox.x2
    ∧ (paste_layers [l]).height = l.bbox.y2
    ∧ (paste_layers [l]).pix x y = l.pix x y := by
  have hused : used_layers [l] [l.name] = [l] := by
    simp [used_layers]
  have hcb : current_bbox [l] = ⟨0, 0, l.bbox.x2, l.bbox.y2⟩ := by
    simp only [current_bbox, List.foldl_cons, List.foldl_nil, bbox_step_eq,
      BBox.mk.injEq]
    refine ⟨?_, ?_, ?_, ?_⟩ <;> omega
  have hsize : get_bounding_size [l] = (l.bbox.x2, l.bbox.y2) := by
    unfold get_bounding_size
    rw [hcb]
    simp
  refine ⟨?_, ?_, ?_, ?_⟩
  · simp [combine_layers, hused]
  · show (List.foldl paste_layer (image_new (get_bounding_size [l])) [l]).width = _
    simp [paste_layer, image_new, hsize]
  · show (List.foldl paste_layer (image_new (get_bounding_size [l])) [l]).height = _
    simp [paste_layer, image_new, hsize]
  · show (List.foldl paste_layer (image_new (get_bounding_size [l])) [l]).pix x y = _
    simp only [List.foldl_cons, List.foldl_nil]
    have hres := paste_layer_pix_opaque (image_new (get_bounding_size [l])) l x y
      hx0 (by rw [hsize] at *; exact hx2) hy0 (by rw [hsize] at *; exact hy2)
      (by omega) hx2 (by omega) hy2
      (by rw [hx1, hy1, sub_zero, sub_zero]; exact hop)
    rw [hres, hx1, hy1, sub_zero, sub_zero]

/-- A square layer with box `(0, 0, 4, 4)` and a uniform opaque color. -/
def squareLayer : Layer := ⟨"sq", ⟨0, 0, 4, 4⟩, fun _ _ => ⟨7, 8, 9, 255⟩⟩

/-- Witness for C4's amended theorem at the concrete square layer and
pixel `(1, 2)`. -/
theorem combine_layers_single_witness :
    combine_layers [squareLayer] [squareLayer.name] = some (paste_layers [squareLayer])
    ∧ (paste_layers [squareLayer]).width = squareLayer.bbox.x2
    ∧ (paste_layers [squareLayer]).height = squareLayer.bbox.y2
    ∧ (paste_layers [squareLayer]).pix 1 2 = squareLayer.pix 1 2 :=
  combine_layers_single squareLayer rfl rfl 1 2 (by decide) (by decide) (by decide)
    (by decide) rfl

/-- A front layer overlapping `squareLayer`: box `(2, 2, 6, 6)`, uniform
opaque blue. -/
def frontLayer : Layer := ⟨"front", ⟨2, 2, 6, 6⟩, fun _ _ => ⟨0, 0, 255, 255⟩⟩

/-- C8: painting order determines the overlap. For layers `A` then `B`,
both fully opaque at an overlapping canvas pixel, the composite holds
`B`'s pixel there; with the order swapped it holds `A`'s pixel. -/
theorem paste_layers_order (A B : Layer) (x y : Int)
    (hAx1 : A.bbox.x1 ≤ x) (hAx2 : x < A.bbox.x2)
    (hAy1 : A.bbox.y1 ≤ y) (hAy2 : y < A.bbox.y2)
    (hBx1 : B.bbox.x1 ≤ x) (hBx2 : x < B.bbox.x2)
    (hBy1 : B.bbox.y1 ≤ y) (hBy2 : y < B.bbox.y2)
    (hx0 : 0 ≤ x) (hy0 : 0 ≤ y)
    (hA : (A.pix (x - A.bbox.x1) (y - A.bbox.y1)).a = 255)
    (hB : (B.pix (x - B.bbox.x1) (y - B.bbox.y1)).a = 255) :
    (paste_layers [A, B]).pix x y = B.pix (x - B.bbox.x1) (y - B.bbox.y1)
    ∧ (paste_layers [B, A]).pix x y = A.pix (x - A.bbox.x1) (y - A.bbox.y1) := by
  have hwAB : x < (get_bounding_size [A, B]).1 := by
    simp only [get_bounding_size, current_bbox, List.foldl_cons, List.foldl_nil,
      bbox_step_eq]
    omega
  have hhAB : y < (get_bounding_size [A, B]).2 := by
    simp only [get_bounding_size, current_bbox, List.foldl_cons, List.foldl_nil,
      bbox_step_eq]
    omega
  have hwBA : x < (get_bounding_size [B, A]).1 := by
    simp only [get_bounding_size, current_bbox, List.foldl_cons, List.foldl_nil,
      bbox_step_eq]
    omega
  have hhBA : y < (get_bounding_size [B, A]).2 := by
    simp only [get_bounding_size, current_bbox, List.foldl_cons, List.foldl_nil,
      bbox_step_eq]
    omega
  refine ⟨?_, ?_⟩
  · show (paste_layer (paste_layer (image_new (get_bounding_size [A, B])) A) B).pix x y = _
    exact paste_layer_pix_opaque _ B x y hx0 hwAB hy0 hhAB hBx1 hBx2 hBy1 hBy2 hB
  · show (paste_layer (paste_layer (image_new (get_bounding_size [B, A])) B) A).pix x y = _
    exact paste_layer_pix_opaque _ A x y hx0 hwBA hy0 hhBA hAx1 hAx2 hAy1 hAy2 hA

/-- Witness for C8 at the concrete overlapping pair `squareLayer` (back)
and `frontLayer` (front), canvas pixel `(2, 3)`. -/
theorem paste_layers_order_witness :
    (paste_layers [squareLayer, frontLayer]).pix 2 3
        = frontLayer.pix (2 - frontLayer.bbox.x1) (3 - frontLayer.bbox.y1)
    ∧ (paste_layers [frontLayer, squareLayer]).pix 2 3
        = squareLayer.pix (2 - squareLayer.bbox.x1) (3 - squareLayer.bbox.y1) :=
  paste_layers_order squareLayer frontLayer 2 3 (by decide) (by decide) (by decide)
    (by decide) (by decide) (by decide) (by decide) (by decide) (by decide) (by decide)
    rfl rfl

/-! ### Frame property: no mutation of input layers, fresh canvas

To talk about mutation and buffer identity at all, the same
`combine_layers` is embedded once more in state-passing style: pixel
buffers live in a store (a list of buffers), each layer holds the index
of its own buffer, `Image.new` appends a fresh buffer, and every
`paste` writes only to that fresh buffer's cell. -/

/-- A layer as a reference into the buffer store: name, box, and the
index of its pixel buffer. -/
structure LayerRef where
  name : String
  bbox : BBox
  buf : Nat

/-- The buffer store: all pixel buffers alive during one call. -/
structure Store where
  bufs : List Canvas

/-- Reading a layer's own pixel buffer out of the store
(`layer.as_PIL()`): a read, never a write. -/
def deref (st : Store) (l : LayerRef) : Layer :=
  ⟨l.name, l.bbox, fun x y => (st.bufs.getD l.buf (image_new (0, 0))).pix x y⟩

/-- The layer selection of `combine_layers`, on layer references. -/
def used_refs (psd : List LayerRef) (names : List String) : List LayerRef :=
  (psd.filter fun l => names.contains l.name).reverse

/-- State-passing embedding of `PSDemiurge.combine_layers` (source lines
145-170): layer buffers are read from the store, `Image.new` appends a
fresh canvas buffer at index `st.bufs.length`, and each
`output_image.paste` overwrites only that cell. Returns the new store
and the index of the result buffer (`none` models the `IndexError` on
an empty selection, raised before any allocation). -/
def combine_layers_st (st : Store) (psd : List LayerRef) (names : List String) :
    Store × Option Nat :=
  if ((used_refs psd names).map (deref st)).isEmpty then (st, none)
  else
    ( ((used_refs psd names).map (deref st)).foldl
        (fun s l => ⟨s.bufs.set st.bufs.length
            (paste_layer (s.bufs.getD st.bufs.length (image_new (0, 0))) l)⟩)
        ⟨st.bufs ++ [image_new (get_bounding_size ((used_refs psd names).map (deref st)))]⟩,
      some st.bufs.length )

lemma getD_concat_length (orig : List Canvas) (a d : Canvas) :
    (orig ++ [a]).getD orig.length d = a := by
  simp [List.getD, List.getElem?_concat_length]

lemma set_concat_length (orig : List Canvas) (a b : Canvas) :
    (orig ++ [a]).set orig.length b = orig ++ [b] := by
  induction orig with
  | nil => rfl
  | cons c os ih => simp [List.set_cons_succ, ih]

lemma foldl_set_shape (orig : List Canvas) (imgs : List Layer) :
    ∀ acc : Canvas,
      (imgs.foldl
          (fun (s : Store) l => ⟨s.bufs.set orig.length
              (paste_layer (s.bufs.getD orig.length (image_new (0, 0))) l)⟩)
          ⟨orig ++ [acc]⟩).bufs
        = orig ++ [imgs.foldl paste_layer acc] := by
  induction imgs with
  | nil => intro acc; rfl
  | cons l ls ih =>
      intro acc
      simp only [List.foldl_cons]
      rw [show (Store.mk (orig ++ [acc])).bufs.set orig.length
            (paste_layer ((Store.mk (orig ++ [acc])).bufs.getD orig.length
              (image_new (0, 0))) l)
          = orig ++ [paste_layer acc l] by
        rw [show (Store.mk (orig ++ [acc])).bufs = orig ++ [acc] from rfl,
          getD_concat_length, set_concat_length]]
      exact ih (paste_layer acc l)

/-- C9: the composite call never writes to any pre-existing buffer: the
store's first `st.bufs.length` cells are exactly the old ones, every
input layer's buffer cell is unchanged, and when a result is returned
its buffer index is the freshly appended one — distinct from every
(valid) input layer's buffer — and holds exactly the pure compositor's
canvas. (Layer names and boxes are immutable values in this model.) -/
theorem combine_layers_st_frame (st : Store) (psd : List LayerRef) (names : List String) :
    ((combine_layers_st st psd names).1).bufs.take st.bufs.length = st.bufs
    ∧ (∀ i, i < st.bufs.length →
        ((combine_layers_st st psd names).1).bufs[i]? = st.bufs[i]?)
    ∧ ∀ r, (combine_layers_st st psd names).2 = some r →
        r = st.bufs.length
        ∧ (∀ l ∈ psd, l.buf < st.bufs.length → r ≠ l.buf)
        ∧ ((combine_layers_st st psd names).1).bufs[r]?
            = some (paste_layers ((used_refs psd names).map (deref st))) := by
  by_cases hemp : ((used_refs psd names).map (deref st)).isEmpty = true
  · have hres : combine_layers_st st psd names = (st, none) := by
      unfold combine_layers_st
      rw [if_pos hemp]
    rw [hres]
    refine ⟨?_, fun i _ => rfl, fun r hr => Option.noConfusion hr⟩
    simp
  · have hbufs : ((combine_layers_st st psd names).1).bufs
        = st.bufs ++ [paste_layers ((used_refs psd names).map (deref st))] := by
      unfold combine_layers_st
      rw [if_neg hemp]
      exact foldl_set_shape st.bufs _ _
    have hsnd : (combine_layers_st st psd names).2 = some st.bufs.length := by
      unfold combine_layers_st
      rw [if_neg hemp]
    refine ⟨?_, ?_, ?_⟩
    · rw [hbufs]
      exact List.take_left st.bufs _
    · intro i hi
      rw [hbufs]
      exact List.getElem?_append_left hi
    · intro r hr
      rw [hsnd] at hr
      have hrr : st.bufs.length = r := Option.some.inj hr
      subst hrr
      refine ⟨rfl, ?_, ?_⟩
      · intro l _ hlt
        omega
      · rw [hbufs]
        exact List.getElem?_concat_length _ _

/-- A one-buffer store for the C9 witness. -/
def demoStore : Store := ⟨[image_new (2, 2)]⟩

/-- A layer reference into `demoStore`'s only buffer. -/
def demoRef : LayerRef := ⟨"sq", ⟨0, 0, 2, 2⟩, 0⟩

/-- Witness for C9 at the concrete one-buffer store: the old cell is
untouched and the returned index is the fresh one, distinct from the
input layer's buffer index. -/
theorem combine_layers_st_frame_witness :
    ((combine_layers_st demoStore [demoRef] ["sq"]).1).bufs[0]? = demoStore.bufs[0]?
    ∧ (1 : Nat) = demoStore.bufs.length
    ∧ (1 : Nat) ≠ demoRef.buf := by
  have h := combine_layers_st_frame demoStore [demoRef] ["sq"]
  have hsome : (combine_layers_st demoStore [demoRef] ["sq"]).2 = some 1 := rfl
  refine ⟨h.2.1 0 (by decide), (h.2.2 1 hsome).1, ?_⟩
  exact (h.2.2 1 hsome).2.1 demoRef (List.mem_singleton.mpr rfl) (by decide)

end PSDemiurge
